import Mathlib

/-!
Verification of the structural code complexity analyzer.

A shallow embedding of `backend/analysis/complexity_analyzer.py` (class
`CodeComplexityAnalyzer`), together with theorems settling the frozen claims
about it.

Modelling conventions:
* file/function text is a `List Char`; Python `str.split("\n")` and
  `str.splitlines()` are embedded as `splitNl` and `splitLinesPy`
  (`splitLinesPy` covers the `\n`, `\r\n`, `\r` line breaks);
* Python `re` word characters are modelled over ASCII
  (letters, digits, underscore), which covers every keyword and pattern
  in the analyzer;
* Python floats are embedded as exact rationals (`ℚ`);
* the regular-expression patterns of the analyzer are embedded with a small
  backtracking matcher (`reRun`) that mirrors the leftmost / alternation-order
  / greedy-with-backtracking semantics of `re.search`, with a fuel argument
  that is generous for the fixed patterns involved;
* `os.walk` over a directory tree is embedded over the rose tree `FSDir`;
  a missing (or unreadable) root directory yields an empty walk, exactly as
  `os.walk` silently does, and is modelled by the `none` case of the
  `Option FSDir` argument;
* `list.sort(key=..., reverse=True)` (a stable descending sort) is embedded
  as `List.insertionSort` with the "greater-or-equal score" relation, which
  is the stable descending sort of the record list.
-/

/-! ## Character and line utilities -/

/-- ASCII word character, the `\w` class of the patterns involved. -/
def isWordChar (c : Char) : Bool := c.isAlphanum || c = '_'

/-- Python whitespace (`\s`, and the characters removed by `str.strip()`),
restricted to ASCII. -/
def isPySpace (c : Char) : Bool :=
  c = ' ' || c = '\t' || c = '\n' || c = '\r' || c = '\x0b' || c = '\x0c'

/-- Python `str.strip()`. -/
def pyStrip (l : List Char) : List Char :=
  ((l.dropWhile isPySpace).reverse.dropWhile isPySpace).reverse

/-- Python `content.split("\n")`. -/
def splitNl : List Char → List (List Char)
  | [] => [[]]
  | c :: rest =>
    if c = '\n' then [] :: splitNl rest
    else
      match splitNl rest with
      | [] => [[c]]
      | l :: ls => (c :: l) :: ls

/-- Python `content.splitlines()` (no trailing empty line; `\n`, `\r\n` and
`\r` breaks). -/
def splitLinesPy : List Char → List (List Char)
  | [] => []
  | '\r' :: '\n' :: rest => [] :: splitLinesPy rest
  | '\r' :: rest => [] :: splitLinesPy rest
  | '\n' :: rest => [] :: splitLinesPy rest
  | c :: rest =>
    match splitLinesPy rest with
    | [] => [[c]]
    | l :: ls => (c :: l) :: ls

/-- Python `"\n".join(lines)`. -/
def joinNl (lines : List (List Char)) : List Char :=
  List.intercalate ['\n'] lines

/-- Does `l` start with `pat`? -/
def startsWithL : List Char → List Char → Bool
  | [], _ => true
  | _ :: _, [] => false
  | p :: ps, c :: cs => p = c && startsWithL ps cs

/-- Python substring containment `pat in l`. -/
def hasSub (pat : List Char) : List Char → Bool
  | [] => startsWithL pat []
  | c :: cs => startsWithL pat (c :: cs) || hasSub pat cs

/-- Index of the first occurrence of `pat` in `l`, if any. -/
def findSubIdx (pat : List Char) : List Char → Option ℕ
  | [] => if startsWithL pat [] then some 0 else none
  | c :: cs =>
    if startsWithL pat (c :: cs) then some 0
    else (findSubIdx pat cs).map (· + 1)

/-- Python `str.lower()` (ASCII). -/
def lowerL (l : List Char) : List Char := l.map Char.toLower

/-- Python `str.lower()` on a `String`. -/
def lowerS (s : String) : String := String.mk (lowerL s.data)

/-! ## Whole-word keyword counting

`re.findall(r"\b" + keyword + r"\b", content, re.IGNORECASE)` for an
alphabetic keyword: a match is a case-insensitive occurrence of the keyword
preceded by no word character (or the start) and followed by no word
character (or the end).  Since the keyword consists of word characters,
matches cannot overlap and counting positions equals `len(findall(...))`. -/

/-- Case-insensitive prefix match of `kw` (given lowercase) against `s`. -/
def matchesCI : List Char → List Char → Bool
  | [], _ => true
  | _ :: _, [] => false
  | k :: ks, c :: cs => c.toLower = k && matchesCI ks cs

/-- Is the character `n` positions into `s` absent or a non-word character? -/
def afterNonWord (n : ℕ) (s : List Char) : Bool :=
  match (s.drop n).head? with
  | none => true
  | some c => !isWordChar c

/-- Word-character status of an optional character (none counts as non-word). -/
def wordO : Option Char → Bool
  | none => false
  | some c => isWordChar c

def countKwAux (kw : List Char) : Option Char → List Char → ℕ
  | _, [] => 0
  | prev, c :: cs =>
    (if !wordO prev && matchesCI kw (c :: cs) && afterNonWord kw.length (c :: cs)
     then 1 else 0) + countKwAux kw (some c) cs

/-- Number of case-insensitive whole-word occurrences of the (lowercase,
alphabetic) keyword `kw` in `content`. -/
def countKw (kw : List Char) (content : List Char) : ℕ :=
  countKwAux kw none content

/-! ## Boolean-operator counting

`re.findall(r"\b(and|or|&&|\|\|)\b", content, re.IGNORECASE)`.  The leading
`\b` requires a word-character transition at the match start, and the
trailing `\b` one at its end, so `&&` and `||` only match when directly
flanked by word characters; matches cannot overlap, so counting match
positions equals `len(findall(...))`. -/

/-- Word boundary between an optional previous character and the start of
`s`. -/
def boundaryAt (prev : Option Char) (s : List Char) : Bool :=
  wordO prev != wordO s.head?

/-- Word boundary `n` characters into `s`. -/
def boundaryAfter (n : ℕ) (s : List Char) : Bool :=
  wordO (s.drop (n - 1)).head? != wordO (s.drop n).head?

def countBoolOpsAux : Option Char → List Char → ℕ
  | _, [] => 0
  | prev, c :: cs =>
    (if boundaryAt prev (c :: cs) &&
        ((matchesCI ['a', 'n', 'd'] (c :: cs) && boundaryAfter 3 (c :: cs)) ||
         (matchesCI ['o', 'r'] (c :: cs) && boundaryAfter 2 (c :: cs)) ||
         (matchesCI ['&', '&'] (c :: cs) && boundaryAfter 2 (c :: cs)) ||
         (matchesCI ['|', '|'] (c :: cs) && boundaryAfter 2 (c :: cs)))
     then 1 else 0) + countBoolOpsAux (some c) cs

/-- Number of matches of `\b(and|or|&&|\|\|)\b` (case-insensitive) in
`content`. -/
def countBoolOps (content : List Char) : ℕ :=
  countBoolOpsAux none content

/-! ## Language profiles (`self.language_patterns`) -/

inductive Lang where
  | python | java | go | csharp | cpp | unknown
deriving DecidableEq, Repr

/-- The data of `self.language_patterns[lang]` that the metric calculators
consume (the signature patterns and comment patterns are embedded separately
as executable matchers). -/
structure LanguageProfile where
  extensions : List String
  branching_keywords : List String
deriving DecidableEq, Repr

/-- Embeds `self.language_patterns` (`none` for a tag with no entry). -/
def language_patterns : Lang → Option LanguageProfile
  | .python => some ⟨[".py"], ["if", "elif", "for", "while", "try", "except", "with"]⟩
  | .java => some ⟨[".java"], ["if", "else", "for", "while", "switch", "case", "try", "catch"]⟩
  | .go => some ⟨[".go"], ["if", "for", "switch", "case", "select"]⟩
  | .csharp => some ⟨[".cs"], ["if", "else", "for", "while", "switch", "case", "try", "catch"]⟩
  | .cpp => some ⟨[".cpp", ".cc", ".cxx", ".c", ".h", ".hpp"],
      ["if", "else", "for", "while", "switch", "case", "try", "catch"]⟩
  | .unknown => none

/-! ## Metric calculators -/

/-- Embeds `calculate_cyclomatic_complexity`: base 1, plus the whole-word keyword
match counts, plus the boolean-operator match count. -/
def calculate_cyclomatic_complexity (content : List Char) (language : Lang) : ℕ :=
  match language_patterns language with
  | none => 1
  | some config =>
    1 + (config.branching_keywords.map (fun kw => countKw kw.data content)).sum
      + countBoolOps content

/-- Leading-whitespace width of a line (`len(line) - len(line.lstrip())`). -/
def indentWidth (l : List Char) : ℕ :=
  l.length - (l.dropWhile isPySpace).length

/-- Embeds `calculate_nesting_depth`: indentation-based for Python, per-line brace
balance for the other languages. -/
def calculate_nesting_depth (content : List Char) (language : Lang) : ℤ :=
  let lines := splitNl content
  if language = .python then
    lines.foldl
      (fun maxd line =>
        if pyStrip line ≠ [] then max maxd ((indentWidth line / 4 : ℕ) : ℤ) else maxd)
      0
  else
    (lines.foldl
      (fun acc line =>
        let cur := acc.2 + (line.count '{' : ℤ) - (line.count '}' : ℤ)
        (max acc.1 cur, cur))
      ((0 : ℤ), (0 : ℤ))).1

/-- Embeds `calculate_function_length`: non-blank lines not starting with `#` or
`//`. -/
def calculate_function_length (content : List Char) : ℕ :=
  (splitNl content).countP
    (fun line =>
      let stripped := pyStrip line
      !stripped.isEmpty && !startsWithL ['#'] stripped &&
        !startsWithL ['/', '/'] stripped)

/-- First match of `\(([^)]*)\)`: the characters between the first `(` that
is followed by some `)` and the first such `)`. -/
def takeUntilRp : List Char → Option (List Char)
  | [] => none
  | ')' :: _ => some []
  | c :: cs => (takeUntilRp cs).map (c :: ·)

def firstParenGroup : List Char → Option (List Char)
  | [] => none
  | '(' :: rest =>
    match takeUntilRp rest with
    | some g => some g
    | none => none
  | _ :: rest => firstParenGroup rest

/-- Embeds `count_parameters`: commas + 1 in the first parenthesised group of the
first line, minus one for Python when `"self"` occurs as a substring of the
stripped group, floored at zero. -/
def count_parameters (function_content : List Char) (language : Lang) : ℤ :=
  if language = .unknown then 0
  else
    let first_line := (splitNl function_content).headD []
    match firstParenGroup first_line with
    | none => 0
    | some g =>
      let params := pyStrip g
      if params.isEmpty then 0
      else
        let n : ℤ := (params.count ',' : ℤ) + 1
        let n := if language = .python && hasSub ['s', 'e', 'l', 'f'] params then n - 1 else n
        max 0 n

/-- Embeds `calculate_cognitive_complexity`.  Python branch: a monotone counter
bumped on any line whose stripped text contains (as a substring) one of the
fixed keywords.  Brace branch: the counter is bumped once on a line
containing `{`, decremented (floored at zero) once on a line containing `}`,
and each branching keyword with a whole-word match in the stripped line adds
`counter + 1`. -/
def calculate_cognitive_complexity (content : List Char) (language : Lang) : ℕ :=
  match language_patterns language with
  | none => 0
  | some config =>
    let lines := splitNl content
    if language = .python then
      (lines.foldl
        (fun acc line =>
          let stripped := pyStrip line
          if ["if", "for", "while", "try", "with"].any
              (fun kw => hasSub kw.data stripped) then
            (acc.1 + (acc.2 + 1), acc.2 + 1)
          else acc)
        ((0 : ℕ), (0 : ℕ))).1
    else
      (lines.foldl
        (fun acc line =>
          let stripped := pyStrip line
          let n1 := if line.contains '{' then acc.2 + 1 else acc.2
          let n2 := if line.contains '}' then n1 - 1 else n1
          let hits := config.branching_keywords.countP
            (fun kw => 0 < countKw kw.data stripped)
          (acc.1 + hits * (n2 + 1), n2))
        ((0 : ℕ), (0 : ℕ))).1

/-! ## Comment-pattern match counting (for the documentation score) -/

/-- Matches of `#.*` (resp. `//.*`): one per line containing the marker. -/
def nonBlankCount (content : List Char) : ℕ :=
  (splitNl content).countP (fun l => !(pyStrip l).isEmpty)

/-- Count of non-overlapping delimiter pairs, the matches of
`d[\s\S]*?d` for a 3-character delimiter `d` (lazy close = first following
occurrence). -/
def countDelimPairsFuel (d : List Char) : ℕ → List Char → ℕ
  | 0, _ => 0
  | fuel + 1, s =>
    match findSubIdx d s with
    | none => 0
    | some i =>
      let rest := s.drop (i + d.length)
      match findSubIdx d rest with
      | none => 0
      | some j => 1 + countDelimPairsFuel d fuel (rest.drop (j + d.length))

def countDelimPairs (d : List Char) (s : List Char) : ℕ :=
  countDelimPairsFuel d (s.length + 1) s

/-- Matches of `/\*[\s\S]*?\*/` (lazy close = first following `*/`). -/
def countBlockCommentsFuel : ℕ → List Char → ℕ
  | 0, _ => 0
  | fuel + 1, s =>
    match findSubIdx ['/', '*'] s with
    | none => 0
    | some i =>
      let rest := s.drop (i + 2)
      match findSubIdx ['*', '/'] rest with
      | none => 0
      | some j => 1 + countBlockCommentsFuel fuel (rest.drop (j + 2))

def countBlockComments (s : List Char) : ℕ :=
  countBlockCommentsFuel (s.length + 1) s

/-- Total `re.findall` match count of the language's comment patterns. -/
def commentMatchCount (language : Lang) (content : List Char) : ℕ :=
  match language with
  | .python =>
    (splitNl content).countP (fun l => l.contains '#')
      + countDelimPairs ['"', '"', '"'] content
      + countDelimPairs ['\'', '\'', '\''] content
  | _ =>
    (splitNl content).countP (fun l => hasSub ['/', '/'] l)
      + countBlockComments content

/-- Embeds `calculate_documentation_score`: the ratio of comment-pattern matches to
non-blank lines, bucketed through the fixed thresholds. -/
def calculate_documentation_score (content : List Char) (language : Lang) : ℕ :=
  match language_patterns language with
  | none => 5
  | some _ =>
    let total := nonBlankCount content
    if total = 0 then 5
    else
      let c := commentMatchCount language content
      if (3 : ℚ) / 10 ≤ (c : ℚ) / total then 10
      else if (2 : ℚ) / 10 ≤ (c : ℚ) / total then 8
      else if (15 : ℚ) / 100 ≤ (c : ℚ) / total then 6
      else if (1 : ℚ) / 10 ≤ (c : ℚ) / total then 4
      else if (5 : ℚ) / 100 ≤ (c : ℚ) / total then 2
      else 0

/-! ## String-literal stripping (`strip_string_literals`)

`re.sub(r'(["\x27])(?:\\.|[^\\])*?\1', '', line)`: a quote character, then a
lazily-extended run of escaped pairs or single characters, closed by the same
quote.  The lazy run stops at the first closing quote not consumed as part of
an escape pair; if no closing quote exists the attempted match fails and
scanning resumes at the next character. -/

/-- Scan for the closing quote `q`, skipping backslash-escape pairs; returns
the remainder after the closing quote. -/
def findCloseQuote (q : Char) : List Char → Option (List Char)
  | [] => none
  | '\\' :: rest =>
    match rest with
    | [] => none
    | _ :: rest' => findCloseQuote q rest'
  | c :: rest => if c = q then some rest else findCloseQuote q rest

def stripStringsFuel : ℕ → List Char → List Char
  | 0, _ => []
  | _ + 1, [] => []
  | fuel + 1, c :: cs =>
    if c = '"' || c = '\'' then
      match findCloseQuote c cs with
      | some rest => stripStringsFuel fuel rest
      | none => c :: stripStringsFuel fuel cs
    else c :: stripStringsFuel fuel cs

/-- Embeds `strip_string_literals` (fuel is one step per character, which the scan
never exceeds since every step consumes at least one character). -/
def strip_string_literals (line : List Char) : List Char :=
  stripStringsFuel (line.length + 1) line

/-! ## A small backtracking regular-expression matcher

Just enough of Python `re` semantics for the five `function_pattern`
expressions: single-character classes, concatenation, ordered alternation,
greedy star (with backtracking), one capturing group, and the word-boundary
assertion `\b`.  The matcher is written in continuation-passing style; `fuel`
bounds the depth of nested calls and is chosen generously for the fixed
patterns involved. -/

inductive RE where
  | eps : RE
  | cls : (Char → Bool) → RE
  | cat : RE → RE → RE
  | alt : RE → RE → RE
  | star : RE → RE
  | grp : RE → RE
  | wb : RE

def reRun : ℕ → RE → Option Char → List Char → Option (List Char) →
    (Option Char → List Char → Option (List Char) → Option (Option (List Char))) →
    Option (Option (List Char))
  | 0, _, _, _, _, _ => none
  | _ + 1, .eps, prev, s, cap, k => k prev s cap
  | _ + 1, .cls p, _, s, cap, k =>
    match s with
    | [] => none
    | c :: cs => if p c then k (some c) cs cap else none
  | fuel + 1, .cat a b, prev, s, cap, k =>
    reRun fuel a prev s cap (fun p' s' c' => reRun fuel b p' s' c' k)
  | fuel + 1, .alt a b, prev, s, cap, k =>
    match reRun fuel a prev s cap k with
    | some res => some res
    | none => reRun fuel b prev s cap k
  | fuel + 1, .star a, prev, s, cap, k =>
    match reRun fuel a prev s cap (fun p' s' c' =>
        if s'.length < s.length then reRun fuel (.star a) p' s' c' k else none) with
    | some res => some res
    | none => k prev s cap
  | fuel + 1, .grp a, prev, s, cap, k =>
    reRun fuel a prev s cap
      (fun p' s' _ => k p' s' (some (s.take (s.length - s'.length))))
  | _ + 1, .wb, prev, s, cap, k =>
    if wordO prev != wordO s.head? then k prev s cap else none

/-- Fuel that is amply sufficient for the fixed signature patterns. -/
def reFuel (s : List Char) : ℕ := (s.length + 2) * 120

/-- Attempt a match of `r` at the start of `s` (with `prev` the character
just before `s`); returns the group-1 capture on success. -/
def reMatchHere (r : RE) (prev : Option Char) (s : List Char) : Option (List Char) :=
  match reRun (reFuel s) r prev s none (fun _ _ cap => some cap) with
  | some cap => some (cap.getD [])
  | none => none

/-- Embeds `re.search`: try successive start positions, leftmost match wins. -/
def reSearchAux (r : RE) (prev : Option Char) (s : List Char) : Option (List Char) :=
  match reMatchHere r prev s with
  | some cap => some cap
  | none =>
    match s with
    | [] => none
    | c :: cs => reSearchAux r (some c) cs

/-- Search of a pattern whose source starts with `^` (no `re.MULTILINE`):
only position 0 can match. -/
def reMatchAt0 (r : RE) (s : List Char) : Option (List Char) :=
  reMatchHere r none s

/-! ### The five `function_pattern` expressions -/

def cats (l : List RE) : RE := l.foldr .cat .eps

def wsC : RE := .cls isPySpace
def wC : RE := .cls isWordChar
def chC (c : Char) : RE := .cls (fun x => x = c)
def strR (s : String) : RE := cats (s.data.map chC)
def optR (r : RE) : RE := .alt r .eps
def plusR (r : RE) : RE := .cat r (.star r)
def wsStar : RE := .star wsC
def wsPlus : RE := plusR wsC
def wPlus : RE := plusR wC

/-- Pattern `^\s*def\s+(\w+)\s*\(` (the `^` is handled by `reMatchAt0`). -/
def pythonSigRE : RE :=
  cats [wsStar, strR "def", wsPlus, .grp wPlus, wsStar, chC '(']

/-- Class `[\w<>\[\]]`. -/
def javaTypeC : RE :=
  .cls (fun c => isWordChar c || c = '<' || c = '>' || c = '[' || c = ']')

/-- Pattern `^\s*(?:public|protected|private)?\s*(?:static\s+)?(?:[\w<>\[\]]+\s+)+(\w+)\s*\([^)]*\)\s*(?:throws\s+\w+(?:\s*,\s*\w+)*)?\s*\{` -/
def javaSigRE : RE :=
  cats [wsStar,
        optR (.alt (strR "public") (.alt (strR "protected") (strR "private"))),
        wsStar,
        optR (.cat (strR "static") wsPlus),
        plusR (.cat (plusR javaTypeC) wsPlus),
        .grp wPlus, wsStar, chC '(',
        .star (.cls (fun c => c ≠ ')')), chC ')', wsStar,
        optR (cats [strR "throws", wsPlus, wPlus,
                    .star (cats [wsStar, chC ',', wsStar, wPlus])]),
        wsStar, chC '{']

/-- Pattern `\bfunc\s+(?:\(\w+\s+\*?\w+\)\s+)?(\w+)\s*\(`. -/
def goSigRE : RE :=
  cats [.wb, strR "func", wsPlus,
        optR (cats [chC '(', wPlus, wsPlus, optR (chC '*'), wPlus, chC ')', wsPlus]),
        .grp wPlus, wsStar, chC '(']

/-- Pattern `\b(?:public|private|protected)?\s*(?:static)?\s*\w+\s+(\w+)\s*\(`. -/
def csharpSigRE : RE :=
  cats [.wb,
        optR (.alt (strR "public") (.alt (strR "private") (strR "protected"))),
        wsStar, optR (strR "static"), wsStar, wPlus, wsPlus,
        .grp wPlus, wsStar, chC '(']

/-- Pattern `\b\w+\s+(\w+)\s*\([^)]*\)\s*{`. -/
def cppSigRE : RE :=
  cats [.wb, wPlus, wsPlus, .grp wPlus, wsStar, chC '(',
        .star (.cls (fun c => c ≠ ')')), chC ')', wsStar, chC '{']

/-- Embeds `re.search(config["function_pattern"], line)`, returning `group(1)`. -/
def signatureMatch : Lang → List Char → Option (List Char)
  | .python, l => reMatchAt0 pythonSigRE l
  | .java, l => reMatchAt0 javaSigRE l
  | .go, l => reSearchAux goSigRE none l
  | .csharp, l => reSearchAux csharpSigRE none l
  | .cpp, l => reSearchAux cppSigRE none l
  | .unknown, _ => none

/-! ## Function extraction (`extract_functions`) -/

structure FuncUnit where
  name : List Char
  language : Lang
  start_line : ℕ
  end_line : ℕ
  content : List (List Char)
deriving DecidableEq, Repr

/-- Net brace count of a line (after string-literal stripping, where used). -/
def braceDelta (l : List Char) : ℤ := (l.count '{' : ℤ) - (l.count '}' : ℤ)

/-- Offset of the first line containing `{` (the signature-capture loop). -/
def findBraceIdx : List (List Char) → Option ℕ
  | [] => none
  | l :: ls => if l.contains '{' then some 0 else (findBraceIdx ls).map (· + 1)

/-- Number of lines consumed by the body-capture loop, starting from brace
balance `bc` (the loop runs while the balance is positive and lines remain).
-/
def bodyLen : ℤ → List (List Char) → ℕ
  | _, [] => 0
  | bc, l :: ls =>
    if 0 < bc then 1 + bodyLen (bc + braceDelta (strip_string_literals l)) ls
    else 0

/-- The scanning loop of `extract_functions`: `i` is the 0-based index of the
first line of `rem` in the file.  An abandoned signature capture (no `{`
before end-of-file) leaves the line index at end-of-file, so it ends the
whole scan.  Fuel: one unit per outer iteration, and every iteration consumes
at least one line. -/
def extractFuel (lang : Lang) (sig : List Char → Option (List Char)) :
    ℕ → ℕ → List (List Char) → List FuncUnit
  | 0, _, _ => []
  | _ + 1, _, [] => []
  | fuel + 1, i, line :: rest =>
    match sig line with
    | none => extractFuel lang sig fuel (i + 1) rest
    | some name =>
      match findBraceIdx (line :: rest) with
      | none => []
      | some kIdx =>
        let rem := line :: rest
        let braceLine := (rem.drop kIdx).headD []
        let bc := braceDelta (strip_string_literals braceLine)
        let blen := bodyLen bc (rem.drop (kIdx + 1))
        let clen := kIdx + 1 + blen
        let content := rem.take clen
        { name := name, language := lang, start_line := i + 1,
          end_line := i + content.length, content := content } ::
          extractFuel lang sig fuel (i + clen) (rem.drop clen)

def extract_functions (content : List Char) (language : Lang) : List FuncUnit :=
  match language_patterns language with
  | none => []
  | some _ =>
    let lines := splitLinesPy content
    extractFuel language (signatureMatch language) (lines.length + 1) 0 lines

/-! ## Per-unit metric aggregation (`analyze_function`) -/

structure ComplexityMetrics where
  cyclomatic_complexity : ℕ
  nesting_depth : ℤ
  function_length : ℕ
  parameter_count : ℤ
  cognitive_complexity : ℕ
  documentation_score : ℕ
  total_score : ℚ
deriving DecidableEq, Repr

/-- Embeds `analyze_function`: the six metrics over the joined unit text, and the
weighted total
`3.0·cyc + 2.5·nesting + 1.5·(length/10) + 1.0·params + 2.0·cognitive
 + (10 − doc)/10 · 2.0`. -/
def analyze_function (u : FuncUnit) : ComplexityMetrics :=
  let content := joinNl u.content
  let language := u.language
  let cyc := calculate_cyclomatic_complexity content language
  let nest := calculate_nesting_depth content language
  let flen := calculate_function_length content
  let par := count_parameters content language
  let cog := calculate_cognitive_complexity content language
  let doc := calculate_documentation_score content language
  let total : ℚ :=
    (cyc : ℚ) * 3 + (nest : ℚ) * (5 / 2) + ((flen : ℚ) / 10) * (3 / 2)
      + (par : ℚ) * 1 + (cog : ℚ) * 2 + ((10 - (doc : ℚ)) / 10) * 2
  ⟨cyc, nest, flen, par, cog, doc, total⟩

/-! ## File and directory exclusion, language detection -/

/-- Embeds `should_skip_directory` (applied to the directory's base name). -/
def should_skip_directory (dir_name : String) : Bool :=
  ([".git", ".svn", ".hg", ".bzr", "node_modules", "bower_components", "vendor",
    "packages", ".gradle", ".maven", "target", "build", "bin", "obj", "out", ".vscode",
    ".idea", ".eclipse", "__pycache__", ".pytest_cache", ".mypy_cache", "venv", "env",
    ".env", "virtualenv", "dist", "coverage", ".nyc_output", "logs", "log", "tmp",
    "temp", ".docker", "docker-compose", ".terraform", ".aws", "migrations", "assets",
    "static", "public", "resources", "docs", "documentation", "wiki", "test", "tests",
    "spec", "specs", ".settings", ".metadata"] : List String).contains dir_name
  || startsWithL ['.'] dir_name.data

/-- Embeds `pathlib.Path(name).suffix`: from the last dot, unless it is the first or
last character of the name. -/
def pySuffix (name : List Char) : List Char :=
  match (name.reverse.takeWhile (· ≠ '.')).length with
  | n =>
    if name.contains '.' && 0 < name.length - 1 - n && n ≠ 0 then
      name.drop (name.length - 1 - n)
    else []

/-- Embeds `should_skip_file` (applied to the file's base name). -/
def should_skip_file (filename : String) : Bool :=
  let lower := lowerS filename
  (["package.json", "package-lock.json", "yarn.lock", "pom.xml", "build.gradle",
    "settings.gradle", "gradle.properties", "build.xml", "ivy.xml", "makefile",
    "cmake", "cmakecache.txt", "requirements.txt", "pipfile", "pipfile.lock",
    "poetry.lock", "composer.json", "composer.lock", "gemfile", "gemfile.lock",
    ".gitignore", ".gitattributes", ".gitmodules", ".dockerignore", "dockerfile",
    "readme.md", "readme.txt", "readme.rst", "license", "license.txt", "license.md",
    "changelog.md", "changelog.txt", "contributing.md", "code_of_conduct.md",
    ".editorconfig", ".eslintrc", ".prettierrc", "tsconfig.json", "jsconfig.json",
    ".babelrc", "webpack.config.js", ".travis.yml", ".circleci", "appveyor.yml",
    "jenkinsfile", ".github", "schema.sql", "seeds.sql", "todo.txt", "notes.txt",
    "manifest.mf", "meta-inf"] : List String).contains lower
  || ([".md", ".txt", ".rst", ".pdf", ".doc", ".docx", ".json", ".xml", ".yaml",
       ".yml", ".ini", ".cfg", ".conf", ".properties", ".env", ".local", ".png",
       ".jpg", ".jpeg", ".gif", ".svg", ".ico", ".bmp", ".mp3", ".mp4", ".avi",
       ".mov", ".wav", ".zip", ".tar", ".gz", ".7z", ".rar", ".exe", ".dll", ".so",
       ".dylib", ".jar", ".war", ".ear", ".db", ".sqlite", ".sqlite3", ".mdb",
       ".log", ".tmp", ".temp", ".cache", ".pem", ".key", ".crt", ".cert", ".g4",
       ".sh", ".bash", ".zsh", ".fish", ".bat", ".cmd", ".ps1", ".psm1", ".lock"]
      : List String).contains (String.mk (lowerL (pySuffix filename.data)))

/-- Embeds `detect_language`: `none` stands for the `"skip"` tag, `some .unknown`
for `"unknown"`. -/
def detect_language (filename : String) : Option Lang :=
  if should_skip_file filename then none
  else
    let ext := String.mk (lowerL (pySuffix filename.data))
    match ([Lang.python, .java, .go, .csharp, .cpp].find?
        (fun l => (((language_patterns l).map LanguageProfile.extensions).getD
          []).contains ext)) with
    | some l => some l
    | none => some .unknown

/-! ## The directory walk and the ranked output (`analyze_codebase`) -/

structure FSFile where
  name : String
  content : String
deriving DecidableEq, Repr

/-- A directory tree: name, plain files, subdirectories. -/
inductive FSDir where
  | mk : String → List FSFile → List FSDir → FSDir

def FSDir.dirName : FSDir → String
  | .mk n _ _ => n

def FSDir.files : FSDir → List FSFile
  | .mk _ fs _ => fs

def FSDir.subdirs : FSDir → List FSDir
  | .mk _ _ ds => ds

mutual

/-- The files reached by the `os.walk` loop of `analyze_codebase`, paired
with the chain of directory names below the scan root.  A skipped directory
hit the `continue`: its own files are not processed, but — since the
`continue` also skips the pruning of `dirs` — `os.walk` still descends into
all of its subdirectories.  A non-skipped directory processes its files and
prunes skipped children before descending. -/
def visitedFiles : FSDir → List (List String × FSFile)
  | .mk n fs subs =>
    if should_skip_directory n then visitedInAll subs
    else fs.map (fun f => (([] : List String), f)) ++ visitedInKept subs

/-- Descent into every subdirectory (the `continue` case: `dirs` was not
pruned). -/
def visitedInAll : List FSDir → List (List String × FSFile)
  | [] => []
  | d :: ds =>
    (visitedFiles d).map (fun e => (d.dirName :: e.1, e.2)) ++ visitedInAll ds

/-- Descent into the subdirectories kept by the pruning of `dirs`. -/
def visitedInKept : List FSDir → List (List String × FSFile)
  | [] => []
  | d :: ds =>
    (if should_skip_directory d.dirName then []
     else (visitedFiles d).map (fun e => (d.dirName :: e.1, e.2))) ++ visitedInKept ds

end

structure RuleAnalysis where
  cyclomatic_complexity : ℕ
  nesting_depth : ℤ
  function_length : ℕ
  parameter_count : ℤ
  cognitive_complexity : ℕ
  documentation_score : ℕ
  rule_score : ℚ
deriving DecidableEq, Repr

structure AnalysisRecord where
  function_name : String
  file_url : String
  github_url : String
  start_line : ℕ
  end_line : ℕ
  language : Lang
  rule_analysis : RuleAnalysis
deriving DecidableEq, Repr

/-- Embeds the f-string `github_repo_url + rel_path + "#L<s>-L<e>"`: the base URL is
concatenated directly with the relative path (no separator is inserted). -/
def renderGithubUrl (base relPath : String) (startLine endLine : ℕ) : String :=
  base ++ relPath ++ "#L" ++ toString startLine ++ "-L" ++ toString endLine

/-- The records produced for one visited file (language detection, function
extraction, metric computation, record assembly). -/
def fileRecords (base rootPath : String) (chain : List String) (f : FSFile) :
    List AnalysisRecord :=
  match detect_language f.name with
  | none => []
  | some .unknown => []
  | some lang =>
    let rel := String.intercalate "/" (chain ++ [f.name])
    let filepath := String.intercalate "/" (rootPath :: (chain ++ [f.name]))
    (extract_functions f.content.data lang).map (fun u =>
      let m := analyze_function u
      { function_name := String.mk u.name
        file_url := "file:///" ++ filepath
        github_url := renderGithubUrl base rel u.start_line u.end_line
        start_line := u.start_line
        end_line := u.end_line
        language := lang
        rule_analysis := ⟨m.cyclomatic_complexity, m.nesting_depth,
          m.function_length, m.parameter_count, m.cognitive_complexity,
          m.documentation_score, m.total_score⟩ })

/-- All records appended during the walk, in discovery order.  A missing (or
unreadable) scan root makes `os.walk` yield nothing, so no records at all are
collected. -/
def discoveredRecords (base rootPath : String) (root : Option FSDir) :
    List AnalysisRecord :=
  match root with
  | none => []
  | some d => ((visitedFiles d).map (fun e => fileRecords base rootPath e.1 e.2)).flatten

/-- The sort key order of `results.sort(key=..., reverse=True)`: descending
`rule_score`. -/
def scoreGe (a b : AnalysisRecord) : Prop :=
  b.rule_analysis.rule_score ≤ a.rule_analysis.rule_score

instance : DecidableRel scoreGe := fun a b =>
  inferInstanceAs (Decidable (b.rule_analysis.rule_score ≤ a.rule_analysis.rule_score))

instance : IsTotal AnalysisRecord scoreGe :=
  ⟨fun a b => (le_total b.rule_analysis.rule_score a.rule_analysis.rule_score).elim
    Or.inl Or.inr⟩

instance : IsTrans AnalysisRecord scoreGe :=
  ⟨fun _ _ _ h1 h2 => le_trans h2 h1⟩

/-- Embeds `analyze_codebase`: walk, score, stable-sort descending by `rule_score`,
truncate to the top 100. -/
def analyze_codebase (base rootPath : String) (root : Option FSDir) :
    List AnalysisRecord :=
  (List.insertionSort scoreGe (discoveredRecords base rootPath root)).take 100

/-! ## Concrete inputs used by the claims -/

/-- The line `if (a && b) \x7b`. -/
def spacedAndLine : List Char := ("if (a && b) \x7b").data

/-- The line `if (a&&b) \x7b`. -/
def adjacentAndLine : List Char := ("if (a&&b) \x7b").data

/-- The line of the spec's example unit (with braces). -/
def singleLineUnit : List Char :=
  ("function f(a,b)\x7b if(a)\x7b for(x;y;z)\x7b\x7d \x7d \x7d").data

/-- The line `\x7d else if (x) \x7b`. -/
def elseIfLine : List Char := ("\x7d else if (x) \x7b").data

/-! ## C2: cyclomatic complexity and the boolean-operator tokens -/

/-- C2 counterexample: the claim predicts that `if (a && b) {` scores
1 (base) + 1 (`if`) + 1 (`&&`) = 3, but the pattern `\b(and|or|&&|\|\|)\b`
cannot match an `&&` that is not directly flanked by word characters, so the
unit scores 2. -/
theorem cyclomatic_spaced_andand_not_counted :
    calculate_cyclomatic_complexity spacedAndLine .cpp = 2 ∧
      calculate_cyclomatic_complexity spacedAndLine .cpp ≠ 3 := by
  constructor <;> decide

/-- C2 amended: cyclomatic complexity is 1 plus one per case-insensitive
whole-word occurrence of each branching keyword plus one per match of
`\b(and|or|&&|\|\|)\b`; the word-boundary assertions make `&&`/`||` count
only when directly flanked by word characters, so `if (a && b) {` scores 2
while `if (a&&b) {` scores 3. -/
theorem cyclomatic_decomposition_and_boundary :
    (∀ content : List Char,
      calculate_cyclomatic_complexity content .cpp =
        1 + ((["if", "else", "for", "while", "switch", "case", "try", "catch"]
              : List String).map (fun kw => countKw kw.data content)).sum
          + countBoolOps content) ∧
    calculate_cyclomatic_complexity spacedAndLine .cpp = 2 ∧
    calculate_cyclomatic_complexity adjacentAndLine .cpp = 3 := by
  refine ⟨fun content => rfl, by decide, by decide⟩

/-! ## C3: the single-line unit `function f(a,b){ if(a){ for(x;y;z){} } }` -/

/-- C3 counterexample: the claim (cyclomatic 3, nesting depth 2, parameters
2) fails on the code because nesting depth is computed from per-line brace
balances, which are 0 for a one-line unit with balanced braces. -/
theorem single_line_unit_claim_false :
    ¬ (calculate_cyclomatic_complexity singleLineUnit .cpp = 3 ∧
       calculate_nesting_depth singleLineUnit .cpp = 2 ∧
       count_parameters singleLineUnit .cpp = 2) := by
  decide

/-- C3 amended: cyclomatic complexity 3 and parameter count 2 as claimed,
but the computed nesting depth is 0. -/
theorem single_line_unit_metrics :
    calculate_cyclomatic_complexity singleLineUnit .cpp = 3 ∧
      calculate_nesting_depth singleLineUnit .cpp = 0 ∧
      count_parameters singleLineUnit .cpp = 2 := by
  refine ⟨by decide, by decide, by decide⟩

/-! ## C4: missing scan root -/

/-- C4 counterexample: for a missing root directory `analyze_codebase`
raises nothing and returns the ordinary empty result — `os.walk` silently
yields nothing — rather than rejecting the input. -/
theorem missing_root_returns_empty :
    analyze_codebase "https://example/" "./repo" none = [] := rfl

/-- C4 amended: the core performs no validation of the root path: a missing
(or unreadable) root produces the normal empty output, indistinguishable
from scanning an empty directory. -/
theorem missing_root_not_rejected (base rootPath : String) :
    analyze_codebase base rootPath none = [] ∧
      analyze_codebase base rootPath (some (.mk "repo" [] [])) = [] := by
  constructor
  · rfl
  · have hv : visitedFiles (.mk "repo" [] []) = [] := by
      simp [visitedFiles, visitedInKept,
        show should_skip_directory "repo" = false from by decide]
    simp [analyze_codebase, discoveredRecords, hv, List.insertionSort]

/-- C4 witness: the amended theorem at a concrete base and root path. -/
theorem missing_root_not_rejected_witness :
    analyze_codebase "https://example/" "p" none = [] ∧
      analyze_codebase "https://example/" "p" (some (.mk "repo" [] [])) = [] :=
  missing_root_not_rejected "https://example/" "p"

/-! ## C9: the rendered `github_url` -/

/-- C9 counterexample: the f-string concatenates the base URL and the
relative path directly, so a base URL without a trailing slash does not get
a `/` separator. -/
theorem github_url_no_separator_inserted :
    renderGithubUrl "http://x" "a.py" 1 2 ≠
      "http://x" ++ "/" ++ "a.py" ++ "#L1-L2" := by
  decide

/-- C9 amended: `github_url` is the direct concatenation
`base ++ rel ++ "#L<start>-L<end>"`; the claimed shape
`<base>/<rel>#L<start>-L<end>` is obtained exactly when the caller-supplied
base URL itself ends with `/`. -/
theorem github_url_shape_with_trailing_slash (base relPath : String)
    (startLine endLine : ℕ) :
    renderGithubUrl (base ++ "/") relPath startLine endLine =
      base ++ "/" ++ relPath ++ "#L" ++ toString startLine
        ++ "-L" ++ toString endLine := by
  simp [renderGithubUrl, String.append_assoc]

/-! ## C1: ranking is truncated, sorted, and stable -/

/-- Records whose `rule_score` equals `q`. -/
def scoreIs (q : ℚ) (r : AnalysisRecord) : Bool :=
  decide (r.rule_analysis.rule_score = q)

theorem filter_orderedInsert_scoreIs (q : ℚ) (a : AnalysisRecord) :
    ∀ l : List AnalysisRecord,
      (List.orderedInsert scoreGe a l).filter (scoreIs q) =
        if a.rule_analysis.rule_score = q then a :: l.filter (scoreIs q)
        else l.filter (scoreIs q) := by
  intro l
  induction l with
  | nil =>
    by_cases ha : a.rule_analysis.rule_score = q <;>
      simp [List.orderedInsert, List.filter, scoreIs, ha]
  | cons b l ih =>
    by_cases hab : scoreGe a b
    · rw [List.orderedInsert_of_le scoreGe _ hab]
      by_cases ha : a.rule_analysis.rule_score = q <;>
        simp [List.filter_cons, scoreIs, ha]
    · have hstep : List.orderedInsert scoreGe a (b :: l) =
          b :: List.orderedInsert scoreGe a l := by
        simp [List.orderedInsert, hab]
      have hlt : a.rule_analysis.rule_score < b.rule_analysis.rule_score :=
        lt_of_not_le hab
      by_cases ha : a.rule_analysis.rule_score = q
      · have hb : ¬ b.rule_analysis.rule_score = q := by
          intro hbq
          rw [ha] at hlt
          rw [hbq] at hlt
          exact lt_irrefl q hlt
        rw [hstep]
        simp [List.filter_cons, scoreIs, ha, hb, ih]
      · rw [hstep]
        simp [List.filter_cons, scoreIs, ha, ih]

theorem filter_insertionSort_scoreIs (q : ℚ) :
    ∀ l : List AnalysisRecord,
      (List.insertionSort scoreGe l).filter (scoreIs q) = l.filter (scoreIs q)
  | [] => rfl
  | a :: l => by
    rw [List.insertionSort, filter_orderedInsert_scoreIs,
      filter_insertionSort_scoreIs q l, List.filter_cons]
    by_cases ha : a.rule_analysis.rule_score = q <;> simp [scoreIs, ha]

/-- C1: for every input tree (and also for a missing root), the returned
sequence has at most 100 records, its `rule_score` values are non-increasing
along the sequence, and for each score value the records carrying it form a
sublist of the discovery-ordered record list — i.e. ties appear in discovery
order. -/
theorem analyze_codebase_top100_sorted_stable (base rootPath : String)
    (root : Option FSDir) :
    (analyze_codebase base rootPath root).length ≤ 100 ∧
    (analyze_codebase base rootPath root).Sorted scoreGe ∧
    ∀ q : ℚ, List.Sublist
      ((analyze_codebase base rootPath root).filter (scoreIs q))
      ((discoveredRecords base rootPath root).filter (scoreIs q)) := by
  refine ⟨?_, ?_, ?_⟩
  · simp only [analyze_codebase, List.length_take]
    exact min_le_left _ _
  · exact (List.sorted_insertionSort scoreGe _).sublist (List.take_sublist _ _)
  · intro q
    have h1 := (List.take_sublist 100
      (List.insertionSort scoreGe (discoveredRecords base rootPath root))).filter
      (scoreIs q)
    rw [filter_insertionSort_scoreIs] at h1
    exact h1

/-! ## C6: exclusion of denylisted directories -/

theorem visited_good_aux : ∀ N : ℕ,
    (∀ d : FSDir, sizeOf d ≤ N → should_skip_directory d.dirName = false →
      ∀ e ∈ visitedFiles d, ∀ n ∈ e.1, should_skip_directory n = false) ∧
    (∀ ds : List FSDir, sizeOf ds ≤ N →
      ∀ e ∈ visitedInKept ds, ∀ n ∈ e.1, should_skip_directory n = false) := by
  intro N
  induction N with
  | zero =>
    constructor
    · intro d hd
      cases d with
      | mk nm fs subs =>
        simp only [FSDir.mk.sizeOf_spec] at hd
        omega
    · intro ds hds e he
      cases ds with
      | nil => simp [visitedInKept] at he
      | cons d rest =>
        simp only [List.cons.sizeOf_spec] at hds
        omega
  | succ N ih =>
    constructor
    · intro d hd hskip e he n hn
      cases d with
      | mk nm fs subs =>
        rw [visitedFiles] at he
        simp only [FSDir.dirName] at hskip
        rw [hskip] at he
        simp only [Bool.false_eq_true, if_false] at he
        rcases List.mem_append.mp he with h1 | h2
        · obtain ⟨f, _, rfl⟩ := List.mem_map.mp h1
          simp at hn
        · have hsz : sizeOf subs ≤ N := by
            simp only [FSDir.mk.sizeOf_spec] at hd
            omega
          exact ih.2 subs hsz e h2 n hn
    · intro ds hds e he n hn
      cases ds with
      | nil => simp [visitedInKept] at he
      | cons d rest =>
        have hsz : sizeOf d ≤ N ∧ sizeOf rest ≤ N := by
          simp only [List.cons.sizeOf_spec] at hds
          omega
        rw [visitedInKept] at he
        rcases List.mem_append.mp he with h1 | h2
        · by_cases hs : should_skip_directory d.dirName = true
          · rw [hs] at h1
            simp at h1
          · have hs' : should_skip_directory d.dirName = false := by
              revert hs
              cases should_skip_directory d.dirName <;> simp
            rw [hs'] at h1
            simp only [Bool.false_eq_true, if_false] at h1
            obtain ⟨e', he', rfl⟩ := List.mem_map.mp h1
            rcases List.mem_cons.mp hn with rfl | hn'
            · exact hs'
            · exact ih.1 d hsz.1 hs' e' he' n hn'
        · exact ih.2 rest hsz.2 e h2 n hn

/-- C6 amended: as long as the scan root itself is not denylisted (and not
dot-prefixed), no visited file lies beneath a denylisted or dot-prefixed
directory — pruning happens before descending.  (When the scan root itself
is denylisted the guarantee fails; see the counterexample.) -/
theorem no_file_visited_under_skipped_dir (d : FSDir)
    (h : should_skip_directory d.dirName = false) :
    (visitedFiles d).all
      (fun e => e.1.all (fun n => !should_skip_directory n)) = true := by
  rw [List.all_eq_true]
  intro e he
  rw [List.all_eq_true]
  intro n hn
  have hgood := (visited_good_aux (sizeOf d)).1 d le_rfl h e he n hn
  rw [hgood]
  rfl

def keptTree : FSDir :=
  .mk "repo" [⟨"a.cpp", "x"⟩]
    [.mk "node_modules" [⟨"b.cpp", "y"⟩] [], .mk "srcy" [⟨"c.cpp", "z"⟩] []]

/-- C6 witness: the amended theorem applied to a concrete tree containing a
`node_modules` subdirectory. -/
theorem no_file_visited_under_skipped_dir_witness :
    (visitedFiles keptTree).all
      (fun e => e.1.all (fun n => !should_skip_directory n)) = true :=
  no_file_visited_under_skipped_dir keptTree (by decide)

def nodeModulesRoot : FSDir :=
  .mk "node_modules" [⟨"top.cpp", "int f() \x7b\x7d"⟩]
    [.mk "src" [⟨"a.cpp", "int f() \x7b\x7d"⟩] []]

/-- C6 counterexample: when the scan root itself is named `node_modules`,
the `continue` in the walk skips the pruning of its subdirectory list, so
the file `src/a.cpp` beneath the denylisted root is still visited (only the
root's own files are dropped). -/
theorem node_modules_root_subtree_visited :
    visitedFiles nodeModulesRoot =
      [(["src"], ⟨"a.cpp", "int f() \x7b\x7d"⟩)] := by
  simp [nodeModulesRoot, visitedFiles, visitedInAll, visitedInKept, FSDir.dirName,
    show should_skip_directory "node_modules" = true from by decide,
    show should_skip_directory "src" = false from by decide]

/-! ## C7: signature matches with no following `{` -/

theorem findBraceIdx_spec :
    ∀ (ls : List (List Char)) (k : ℕ), findBraceIdx ls = some k →
      k < ls.length ∧ ((ls.drop k).headD []).contains '{' = true := by
  intro ls
  induction ls with
  | nil => intro k hk; simp [findBraceIdx] at hk
  | cons l rest ih =>
    intro k hk
    by_cases hb : l.contains '{' = true
    · rw [findBraceIdx, if_pos hb] at hk
      cases hk
      exact ⟨Nat.succ_pos _, hb⟩
    · rw [findBraceIdx, if_neg hb] at hk
      obtain ⟨k', hk', rfl⟩ := Option.map_eq_some'.mp hk
      obtain ⟨h1, h2⟩ := ih k' hk'
      exact ⟨Nat.succ_lt_succ h1, h2⟩

theorem extractFuel_start_bound (lang : Lang) (sig : List Char → Option (List Char))
    (m : ℕ) :
    ∀ (fuel : ℕ) (rem : List (List Char)) (i : ℕ),
      (∀ j, (hj : j < rem.length) → rem[j].contains '{' = true → i + j < m) →
      ∀ u ∈ extractFuel lang sig fuel i rem, u.start_line ≤ m := by
  intro fuel
  induction fuel with
  | zero =>
    intro rem i _ u hu
    simp [extractFuel] at hu
  | succ fuel ih =>
    intro rem i h u hu
    cases rem with
    | nil => simp [extractFuel] at hu
    | cons line rest =>
      rw [extractFuel] at hu
      cases hsig : sig line with
      | none =>
        rw [hsig] at hu
        refine ih rest (i + 1) (fun j hj hb => ?_) u hu
        have := h (j + 1) (by simpa using Nat.succ_lt_succ hj) (by simpa using hb)
        omega
      | some name =>
        rw [hsig] at hu
        cases hfb : findBraceIdx (line :: rest) with
        | none =>
          rw [hfb] at hu
          simp at hu
        | some kIdx =>
          rw [hfb] at hu
          obtain ⟨hklt, hbr⟩ := findBraceIdx_spec _ _ hfb
          have hhead : ((line :: rest).drop kIdx).headD [] = (line :: rest)[kIdx] := by
            rw [List.drop_eq_getElem_cons hklt]
            rfl
          have hikm : i + kIdx < m := h kIdx hklt (by rw [← hhead]; exact hbr)
          simp only [List.mem_cons] at hu
          rcases hu with rfl | hu'
          · show i + 1 ≤ m
            omega
          · set clen := kIdx + 1 +
              bodyLen (braceDelta (strip_string_literals
                (((line :: rest).drop kIdx).headD [])))
                ((line :: rest).drop (kIdx + 1)) with hclen
            refine ih ((line :: rest).drop clen) (i + clen) (fun j hj hb => ?_) u hu'
            have hjlen : clen + j < (line :: rest).length := by
              rw [List.length_drop] at hj
              omega
            have hget : ((line :: rest).drop clen)[j] = (line :: rest)[clen + j] := by
              rw [List.getElem_drop]
            rw [hget] at hb
            have := h (clen + j) hjlen hb
            omega

/-- C7 amended: when no line from (0-based) line `m` onward contains a `{`,
extraction never raises and emits no unit starting at line `m + 1` or later:
a signature match in that region is abandoned (the scan then stops at
end-of-file, which is observably the same as resuming past the match, since
no later match can complete either).  Units that started earlier may still
span the matching line, so the output is not in general the same as if the
line were deleted — see the counterexample. -/
theorem no_units_start_in_braceless_tail (content : List Char) (language : Lang)
    (m : ℕ) (h : ∀ l ∈ (splitLinesPy content).drop m, l.contains '{' = false) :
    (extract_functions content language).all
      (fun u => decide (u.start_line ≤ m)) = true := by
  rw [List.all_eq_true]
  intro u hu
  rw [decide_eq_true_iff]
  unfold extract_functions at hu
  cases hcfg : language_patterns language with
  | none =>
    rw [hcfg] at hu
    simp at hu
  | some cfg =>
    rw [hcfg] at hu
    refine extractFuel_start_bound language (signatureMatch language) m _ _ 0
      (fun j hj hb => ?_) u hu
    by_contra hge
    push_neg at hge
    have hjm : m ≤ j := by omega
    have hmem : (splitLinesPy content)[j] ∈ (splitLinesPy content).drop m := by
      have hlt : j - m < ((splitLinesPy content).drop m).length := by
        rw [List.length_drop]
        omega
      have : ((splitLinesPy content).drop m)[j - m] = (splitLinesPy content)[j] := by
        rw [List.getElem_drop]
        congr 1
        omega
      rw [← this]
      exact List.getElem_mem hlt
    have := h _ hmem
    rw [hb] at this
    cases this

def braceFreeTailFile : List Char := ("func g() \x7b\n\x7d\nfunc h()").data

/-- C7 witness: the amended theorem on a file whose third line matches the
Go signature pattern but is never followed by a `{`. -/
theorem no_units_start_in_braceless_tail_witness :
    (extract_functions braceFreeTailFile .go).all
      (fun u => decide (u.start_line ≤ 2)) = true :=
  no_units_start_in_braceless_tail braceFreeTailFile .go 2 (by decide)

def absorbedSigFile : List Char := ("func g() \x7b\nfunc h()\n\x7d").data

def absorbedSigFileRemoved : List Char := ("func g() \x7b\n\x7d").data

/-- C7 counterexample: the second line of `absorbedSigFile` matches the Go
signature pattern and no `{` occurs on it or later, yet the extracted
sequence differs from that of the file with the matching line deleted — the
line lies inside the body of `g`, whose unit therefore changes span. -/
theorem abandoned_signature_not_equivalent_to_removal :
    extract_functions absorbedSigFile .go ≠
      extract_functions absorbedSigFileRemoved .go := by
  decide

/-! ## C5: cognitive complexity charging -/

/-- Modelled from the spec: the claim reads the brace-language rule as
adding `(counter + 1)` once per line whose trimmed text contains a branching
keyword (however many distinct keywords the line contains).  This definition
follows that wording; the code (`calculate_cognitive_complexity`) instead
adds `(counter + 1)` once per matching keyword. -/
def cognitive_once_per_line (content : List Char) (language : Lang) : ℕ :=
  match language_patterns language with
  | none => 0
  | some config =>
    ((splitNl content).foldl
      (fun acc line =>
        let stripped := pyStrip line
        let n1 := if line.contains '{' then acc.2 + 1 else acc.2
        let n2 := if line.contains '}' then n1 - 1 else n1
        let charged :=
          if config.branching_keywords.any
              (fun kw => decide (0 < countKw kw.data stripped)) then n2 + 1
          else 0
        (acc.1 + charged, n2))
      ((0 : ℕ), (0 : ℕ))).1

/-- C5 counterexample: on `} else if (x) {` (where both `else` and `if`
match) the code scores 2, while the once-per-line rule of the claim scores
1. -/
theorem cognitive_charge_differs_from_once_per_line :
    calculate_cognitive_complexity elseIfLine .cpp = 2 ∧
      cognitive_once_per_line elseIfLine .cpp = 1 ∧
      calculate_cognitive_complexity elseIfLine .cpp ≠
        cognitive_once_per_line elseIfLine .cpp := by
  refine ⟨by decide, by decide, by decide⟩

/-- Nesting counter after processing a single line from counter 0: one
increment if the line contains `{`, then one floored decrement if it
contains `}`. -/
def lineNestAfter (l : List Char) : ℕ :=
  let n1 := if l.contains '{' then 1 else 0
  if l.contains '}' then n1 - 1 else n1

/-- C5 amended: for a brace-based language, the counter is bumped once per
line containing `{`, decremented (floored at zero) once per line containing
`}`, and each branching keyword with a whole-word match in the trimmed line
separately adds `(counter + 1)` — so a one-line unit scores
(number of matching keywords) × (counter + 1), and `} else if (x) {` scores
2, not 1. -/
theorem cognitive_charges_each_keyword (l : List Char) (cfg : LanguageProfile)
    (language : Lang) (hl : language ≠ .python)
    (hcfg : language_patterns language = some cfg)
    (hnl : l.contains '\n' = false) :
    calculate_cognitive_complexity l language =
      (cfg.branching_keywords.countP
        (fun kw => decide (0 < countKw kw.data (pyStrip l))))
        * (lineNestAfter l + 1) ∧
    calculate_cognitive_complexity elseIfLine .cpp = 2 := by
  refine ⟨?_, by decide⟩
  have hsplit : splitNl l = [l] := by
    induction l with
    | nil => rfl
    | cons c rest ih =>
      rw [List.contains_cons] at hnl
      have hc : ¬ c = '\n' := by
        intro hcc
        rw [hcc] at hnl
        simp at hnl
      have hrest := ih (by
        revert hnl
        cases rest.contains '\n' <;> simp)
      rw [splitNl, if_neg hc, hrest]
  simp only [calculate_cognitive_complexity, hcfg, hsplit]
  rw [if_neg (by simpa using hl)]
  simp [lineNestAfter, List.foldl_cons, List.foldl_nil]

/-- C5 witness: the amended theorem applied to `} else if (x) {` in the
C/C++ profile. -/
theorem cognitive_charges_each_keyword_witness :
    calculate_cognitive_complexity elseIfLine .cpp =
      ((["if", "else", "for", "while", "switch", "case", "try", "catch"]
        : List String).countP
        (fun kw => decide (0 < countKw kw.data (pyStrip elseIfLine))))
        * (lineNestAfter elseIfLine + 1) ∧
    calculate_cognitive_complexity elseIfLine .cpp = 2 :=
  cognitive_charges_each_keyword elseIfLine
    ⟨[".cpp", ".cc", ".cxx", ".c", ".h", ".hpp"],
     ["if", "else", "for", "while", "switch", "case", "try", "catch"]⟩
    .cpp (by decide) rfl (by decide)

/-! ## C8: the documentation score thresholds -/

/-- Modelled from the spec: the threshold table mapping the ratio of
comment-pattern matches to non-blank lines onto the bucketed score
(`≥0.30→10, ≥0.20→8, ≥0.15→6, ≥0.10→4, ≥0.05→2`, else 0). -/
def ratioScore (c n : ℕ) : ℕ :=
  if (3 : ℚ) / 10 ≤ (c : ℚ) / (n : ℚ) then 10
  else if (2 : ℚ) / 10 ≤ (c : ℚ) / (n : ℚ) then 8
  else if (15 : ℚ) / 100 ≤ (c : ℚ) / (n : ℚ) then 6
  else if (1 : ℚ) / 10 ≤ (c : ℚ) / (n : ℚ) then 4
  else if (5 : ℚ) / 100 ≤ (c : ℚ) / (n : ℚ) then 2
  else 0

/-- C8: for a supported language and a unit with at least one non-blank line
(true of every extracted unit, whose first line matched a signature
pattern), the documentation score is exactly the thresholded ratio of
comment-pattern matches to non-blank lines; it always lies in
{0, 2, 4, 6, 8, 10}; a ratio of exactly 0.30 scores 10, and a ratio of 0.299
scores 8. -/
theorem documentation_score_thresholds (content : List Char) (language : Lang)
    (h1 : language ≠ .unknown) (h2 : 0 < nonBlankCount content) :
    calculate_documentation_score content language =
      ratioScore (commentMatchCount language content) (nonBlankCount content) ∧
    ratioScore (commentMatchCount language content) (nonBlankCount content) ∈
      ([0, 2, 4, 6, 8, 10] : List ℕ) ∧
    ratioScore 3 10 = 10 ∧ ratioScore 299 1000 = 8 := by
  have hne : ¬ nonBlankCount content = 0 := by omega
  refine ⟨?_, ?_, ?_, ?_⟩
  · cases language with
    | unknown => exact absurd rfl h1
    | python => simp only [calculate_documentation_score, language_patterns,
        ratioScore, hne, if_false]
    | java => simp only [calculate_documentation_score, language_patterns,
        ratioScore, hne, if_false]
    | go => simp only [calculate_documentation_score, language_patterns,
        ratioScore, hne, if_false]
    | csharp => simp only [calculate_documentation_score, language_patterns,
        ratioScore, hne, if_false]
    | cpp => simp only [calculate_documentation_score, language_patterns,
        ratioScore, hne, if_false]
  · unfold ratioScore
    split
    · simp
    · split
      · simp
      · split
        · simp
        · split
          · simp
          · split <;> simp
  · norm_num [ratioScore]
  · norm_num [ratioScore]

def docExample : List Char := ("// a\nb();\nc();").data

/-- C8 witness: the theorem applied to a concrete three-line C++ unit with
one comment match. -/
theorem documentation_score_thresholds_witness :
    calculate_documentation_score docExample .cpp =
      ratioScore (commentMatchCount .cpp docExample) (nonBlankCount docExample) ∧
    ratioScore (commentMatchCount .cpp docExample) (nonBlankCount docExample) ∈
      ([0, 2, 4, 6, 8, 10] : List ℕ) ∧
    ratioScore 3 10 = 10 ∧ ratioScore 299 1000 = 8 :=
  documentation_score_thresholds docExample .cpp (by decide) (by decide)

/-! ## C10: Python parameter counting and the `self` substring test -/

/-- C10: for a Python unit whose first line has a non-empty first
parenthesised group, the parameter count is commas + 1, minus one whenever
the four characters `self` occur anywhere in the (stripped) group — also as
part of a longer identifier, and in any position — floored at zero:
`def f(selfish, b)` counts 1, `def f(a, b, xself)` counts 2, `def f(self)`
counts 0. -/
theorem count_parameters_python_self_substring (content g : List Char)
    (h1 : firstParenGroup ((splitNl content).headD []) = some g)
    (h2 : (pyStrip g).isEmpty = false) :
    count_parameters content .python =
      max 0 (((pyStrip g).count ',' + 1 : ℤ) -
        (if hasSub ['s', 'e', 'l', 'f'] (pyStrip g) then 1 else 0)) ∧
    count_parameters ("def f(selfish, b):").data .python = 1 ∧
    count_parameters ("def f(a, b, xself):").data .python = 2 ∧
    count_parameters ("def f(self):").data .python = 0 := by
  refine ⟨?_, by decide, by decide, by decide⟩
  simp only [count_parameters, h1, if_neg (by decide : ¬ Lang.python = Lang.unknown)]
  rw [h2]
  by_cases hs : hasSub ['s', 'e', 'l', 'f'] (pyStrip g) = true <;>
    simp [hs]

/-- C10 witness: the theorem applied to `def f(selfish, b):`. -/
theorem count_parameters_python_self_substring_witness :
    count_parameters ("def f(selfish, b):").data .python =
      max 0 (((pyStrip ("selfish, b").data).count ',' + 1 : ℤ) -
        (if hasSub ['s', 'e', 'l', 'f'] (pyStrip ("selfish, b").data) then 1
         else 0)) ∧
    count_parameters ("def f(selfish, b):").data .python = 1 ∧
    count_parameters ("def f(a, b, xself):").data .python = 2 ∧
    count_parameters ("def f(self):").data .python = 0 :=
  count_parameters_python_self_substring ("def f(selfish, b):").data
    ("selfish, b").data (by decide) (by decide)
